import Mathlib

/-!
Verification of the `emitter` in-process publish/subscribe engine.

The Go source is shallowly embedded:
* Go strings are modelled as `List Char`; `strings.Split(s, ".")` is `splitDot`
  (splitting the empty string yields one empty segment, as in Go).
* `matchTopicPattern` and `isValidTopicName` follow `utils.go`.
* `Topic` (topics.go) models the listener map as a lookup function and the
  priority-sorted id slice as a list; mutation becomes state passing.
* `MemoryEmitter` (memory.go) models the `sync.Map` of topics as an
  association list (one fixed `Range` iteration order), the mutable `Event`
  as an explicitly threaded `EventState`, and the impure id generator as a
  deterministic stream indexed by a counter.
-/

/-- Wildcard segment `*` of utils.go, as a list of characters. -/
def SingleWildcard : List Char := ['*']

/-- Wildcard segment `**` of utils.go, as a list of characters. -/
def MultiWildcard : List Char := ['*', '*']

/-- Embedding of Go `strings.Split(s, ".")`: splitting `""` yields `[""]`,
and every `.` starts a new (possibly empty) segment. -/
def splitDot : List Char → List (List Char)
  | [] => [[]]
  | c :: cs =>
    if c = '.' then [] :: splitDot cs
    else
      match splitDot cs with
      | [] => [[c]]
      | s :: rest => (c :: s) :: rest

/-- The inner recursive closure `matchParts` of `matchTopicPattern`
(utils.go): segment-by-segment comparison with backtracking for `**`.
The `**`-not-last branch mirrors the Go loop
`for i := range len(subjectParts) - s + 1 { matchParts(p+1, s+i) }`:
the remaining pattern is tried against every suffix of the remaining
subject, including the empty one. -/
def matchParts : List (List Char) → List (List Char) → Bool
  | [], [] => true
  | p :: ps, [] => (p :: ps).all (fun q => decide (q = MultiWildcard))
  | [], _ :: _ => false
  | p :: ps, s :: ss =>
    if p = SingleWildcard then matchParts ps ss
    else if p = MultiWildcard then
      if ps = [] then true
      else (List.range (ss.length + 2)).any (fun i => matchParts ps ((s :: ss).drop i))
    else decide (p = s) && matchParts ps ss

/-- Embedding of `matchTopicPattern(pattern, subject)` from utils.go:
fast path for exact equality, fast path for dot-free strings, the
special case refusing to let a trailing `**` match the bare one-segment
topic equal to the pattern's first segment, then the recursive walk. -/
def matchTopicPattern (pattern subject : List Char) : Bool :=
  if pattern = subject then true
  else if !(pattern.contains '.') && !(subject.contains '.') then
    decide (pattern = SingleWildcard) || decide (pattern = MultiWildcard)
  else if pattern = SingleWildcard ∧ subject = [] then true
  else
    let patternParts := splitDot pattern
    let subjectParts := splitDot subject
    if patternParts.length > 1 ∧ patternParts.getLast? = some MultiWildcard ∧
        subjectParts.length = 1 ∧ subjectParts.headD [] = patternParts.headD [] then
      false
    else matchParts patternParts subjectParts

example : matchTopicPattern "event.**".data "event".data = false := by decide
example : matchTopicPattern "event.**".data "event.sub".data = true := by decide
example : matchTopicPattern "a.**".data "a".data = false := by decide
example : matchTopicPattern "a.**".data "a.b".data = true := by decide
example : matchTopicPattern "a.**".data "a.b.c".data = true := by decide
example : matchTopicPattern "a.b.**".data "a.b".data = true := by decide
example : matchTopicPattern "**".data "".data = true := by decide
example : matchTopicPattern "*".data "".data = true := by decide
example : matchTopicPattern "*".data "a.b".data = false := by decide
example : matchTopicPattern "a.*".data "a".data = false := by decide
example : matchTopicPattern "a.*".data "a.b".data = true := by decide
example : matchTopicPattern "a.*".data "a.b.c".data = false := by decide
example : matchTopicPattern "**.x.y".data "p.q.x.y".data = true := by decide
example : matchTopicPattern "**.x.y".data "p.q.x.z".data = false := by decide
example : matchTopicPattern "**.error".data "db.conn.error".data = true := by decide
example : matchTopicPattern "**.error".data "errors".data = false := by decide

theorem splitDot_ne_nil (xs : List Char) : splitDot xs ≠ [] := by
  cases xs with
  | nil => simp [splitDot]
  | cons c cs =>
    simp only [splitDot]
    split
    · simp
    · split <;> simp

theorem splitDot_no_dot (xs : List Char) (h : '.' ∉ xs) : splitDot xs = [xs] := by
  induction xs with
  | nil => simp [splitDot]
  | cons c cs ih =>
    have hc : ¬(c = '.') := by rintro rfl; exact h (List.mem_cons_self _ _)
    have hcs : '.' ∉ cs := fun hm => h (List.mem_cons_of_mem _ hm)
    simp only [splitDot, if_neg hc]
    rw [ih hcs]

theorem splitDot_append_dot (xs ys : List Char) (h : '.' ∉ xs) :
    splitDot (xs ++ '.' :: ys) = xs :: splitDot ys := by
  induction xs with
  | nil => simp [splitDot]
  | cons c cs ih =>
    have hc : ¬(c = '.') := by rintro rfl; exact h (List.mem_cons_self _ _)
    have hcs : '.' ∉ cs := fun hm => h (List.mem_cons_of_mem _ hm)
    simp only [List.cons_append, splitDot, List.append_eq, if_neg hc]
    rw [ih hcs]

/-- Once the fast paths of `matchTopicPattern` are ruled out, the function is
the special-case test followed by `matchParts` on the split segments. -/
theorem matchTopicPattern_eq_core (pattern subject : List Char)
    (hne : pattern ≠ subject) (hdot : '.' ∈ pattern) :
    matchTopicPattern pattern subject =
      if (splitDot pattern).length > 1 ∧ (splitDot pattern).getLast? = some MultiWildcard ∧
          (splitDot subject).length = 1 ∧
          (splitDot subject).headD [] = (splitDot pattern).headD [] then
        false
      else matchParts (splitDot pattern) (splitDot subject) := by
  have h1 : pattern.contains '.' = true := List.elem_eq_true_of_mem hdot
  have h2 : pattern ≠ SingleWildcard := by
    rintro rfl; simp [SingleWildcard] at hdot
  rw [matchTopicPattern, if_neg hne, if_neg (by simp [h1, hdot]), if_neg (by rintro ⟨hh, -⟩; exact h2 hh)]


/-- C1: a pattern that is one literal dot-free segment `X` followed by `.**`
never matches the bare topic `X`, and always matches `X` followed by a dot
and at least one further segment (`matches("event.**","event")` is false,
`matches("event.**","event.sub")` is true). -/
theorem matchTopicPattern_trailing_multi_bare (X ys : List Char) (hdot : '.' ∉ X)
    (h1 : X ≠ SingleWildcard) (h2 : X ≠ MultiWildcard) :
    matchTopicPattern (X ++ '.' :: MultiWildcard) X = false ∧
    matchTopicPattern (X ++ '.' :: MultiWildcard) (X ++ '.' :: ys) = true := by
  have hdotp : '.' ∈ X ++ '.' :: MultiWildcard := by simp
  have hsplitP : splitDot (X ++ '.' :: MultiWildcard) = [X, MultiWildcard] := by
    rw [splitDot_append_dot _ _ hdot, splitDot_no_dot MultiWildcard (by decide)]
  constructor
  · have hne : X ++ '.' :: MultiWildcard ≠ X := by
      intro h
      have := congrArg List.length h
      simp [MultiWildcard] at this
    rw [matchTopicPattern_eq_core _ _ hne hdotp, hsplitP, splitDot_no_dot X hdot]
    simp
  · by_cases hys : ys = MultiWildcard
    · subst hys
      rw [matchTopicPattern, if_pos rfl]
    · have hne2 : X ++ '.' :: MultiWildcard ≠ X ++ '.' :: ys := by
        intro h
        have h' := List.append_cancel_left h
        simp only [List.cons.injEq] at h'
        exact hys h'.2.symm
      rw [matchTopicPattern_eq_core _ _ hne2 hdotp, hsplitP, splitDot_append_dot _ _ hdot]
      obtain ⟨s', ss', hss⟩ := List.exists_cons_of_ne_nil (splitDot_ne_nil ys)
      rw [hss, if_neg (by simp)]
      simp only [matchParts, if_neg h1, if_neg h2]
      simp [matchParts, MultiWildcard, SingleWildcard]

theorem matchTopicPattern_trailing_multi_bare_witness :
    ('.' ∉ "event".data ∧ "event".data ≠ SingleWildcard ∧ "event".data ≠ MultiWildcard) ∧
    matchTopicPattern ("event".data ++ '.' :: MultiWildcard) "event".data = false ∧
    matchTopicPattern ("event".data ++ '.' :: MultiWildcard) ("event".data ++ '.' :: "sub".data) = true :=
  ⟨by decide,
   matchTopicPattern_trailing_multi_bare "event".data "sub".data (by decide) (by decide) (by decide)⟩

/-- C4: the bare-prefix exception fires only for one-segment topics: a pattern
`A.B.**` with a two-segment literal dot-free prefix matches the bare topic
`A.B`, while `a.**` still rejects the bare topic `a`. -/
theorem matchTopicPattern_two_segment_bare (A B : List Char)
    (hA : '.' ∉ A) (hB : '.' ∉ B)
    (hA1 : A ≠ SingleWildcard) (hA2 : A ≠ MultiWildcard)
    (hB1 : B ≠ SingleWildcard) (hB2 : B ≠ MultiWildcard) :
    matchTopicPattern (A ++ '.' :: (B ++ '.' :: MultiWildcard)) (A ++ '.' :: B) = true ∧
    matchTopicPattern "a.**".data "a".data = false := by
  refine ⟨?_, by decide⟩
  have hdotp : '.' ∈ A ++ '.' :: (B ++ '.' :: MultiWildcard) := by simp
  have hne : A ++ '.' :: (B ++ '.' :: MultiWildcard) ≠ A ++ '.' :: B := by
    intro h
    have h' := List.append_cancel_left h
    simp only [List.cons.injEq] at h'
    have := congrArg List.length h'.2
    simp [MultiWildcard] at this
  have hsplitP :
      splitDot (A ++ '.' :: (B ++ '.' :: MultiWildcard)) = [A, B, MultiWildcard] := by
    rw [splitDot_append_dot _ _ hA, splitDot_append_dot _ _ hB,
        splitDot_no_dot MultiWildcard (by decide)]
  have hsplitS : splitDot (A ++ '.' :: B) = [A, B] := by
    rw [splitDot_append_dot _ _ hA, splitDot_no_dot B hB]
  rw [matchTopicPattern_eq_core _ _ hne hdotp, hsplitP, hsplitS, if_neg (by simp)]
  simp only [matchParts, if_neg hA1, if_neg hA2, if_neg hB1, if_neg hB2]
  simp [matchParts, MultiWildcard, SingleWildcard]

theorem matchTopicPattern_two_segment_bare_witness :
    ('.' ∉ "a".data ∧ '.' ∉ "b".data) ∧
    matchTopicPattern ("a".data ++ '.' :: ("b".data ++ '.' :: MultiWildcard))
      ("a".data ++ '.' :: "b".data) = true ∧
    matchTopicPattern "a.**".data "a".data = false :=
  ⟨by decide,
   matchTopicPattern_two_segment_bare "a".data "b".data (by decide) (by decide)
     (by decide) (by decide) (by decide) (by decide)⟩

/-- C8: matchTopicPattern is total and deterministic: on every pair of inputs
(including empty strings and strings with consecutive dots) it returns one of
the two booleans, and equal inputs give equal results. -/
theorem matchTopicPattern_total_deterministic (p s q t : List Char)
    (hp : p = q) (hs : s = t) :
    (matchTopicPattern p s = true ∨ matchTopicPattern p s = false) ∧
    matchTopicPattern p s = matchTopicPattern q t := by
  subst hp
  subst hs
  refine ⟨?_, rfl⟩
  cases matchTopicPattern p s <;> simp

theorem matchTopicPattern_total_deterministic_witness :
    ("a..b".data = "a..b".data ∧ "".data = "".data) ∧
    (matchTopicPattern "a..b".data "".data = true ∨
      matchTopicPattern "a..b".data "".data = false) ∧
    matchTopicPattern "a..b".data "".data = matchTopicPattern "a..b".data "".data :=
  ⟨⟨rfl, rfl⟩, matchTopicPattern_total_deterministic "a..b".data "".data "a..b".data "".data rfl rfl⟩

/-- Priority levels from priority.go; Go's `Priority` is an integer type. -/
abbrev Priority := Int

/-- `Lowest Priority = 0` (priority.go); namespaced because Mathlib already
declares `Normal`. -/
def Priority.Lowest : Priority := 0

/-- `Low Priority = 25` (priority.go). -/
def Priority.Low : Priority := 25

/-- `Normal Priority = 50`, the default priority (priority.go, listener.go). -/
def Priority.Normal : Priority := 50

/-- `High Priority = 75` (priority.go). -/
def Priority.High : Priority := 75

/-- `Highest Priority = 100` (priority.go). -/
def Priority.Highest : Priority := 100

/-- The sentinel errors of errors.go returned by the embedded operations. -/
inductive SentinelError where
  | nilListener
  | invalidTopicName
  | topicNotFound
  | listenerNotFound
  | emitterClosed
  | emitterAlreadyClosed
deriving DecidableEq

/-- The mutable `BaseEvent` of event.go: an immutable topic name plus the
mutable payload and abort flag. Mutation through the shared pointer becomes
explicit state passing. -/
structure EventState (α : Type) where
  topic : String
  payload : α
  aborted : Bool
deriving DecidableEq

/-- `NewBaseEvent` (event.go): fresh event with the given topic and payload,
not aborted. -/
def NewBaseEvent (topic : String) (payload : α) : EventState α :=
  { topic := topic, payload := payload, aborted := false }

/-- `Event.SetPayload` (event.go). -/
def EventState.SetPayload (e : EventState α) (p : α) : EventState α :=
  { e with payload := p }

/-- `Event.SetAborted` (event.go). -/
def EventState.SetAborted (e : EventState α) (b : Bool) : EventState α :=
  { e with aborted := b }

/-- `Event.IsAborted` (event.go). -/
def EventState.IsAborted (e : EventState α) : Bool :=
  e.aborted

/-- A Go `Listener` is `func(Event) error`; with the shared mutable event
modelled by state passing it maps the received event state to the event state
it leaves behind plus an optional error (listener.go). -/
def Listener (ε α : Type) : Type := EventState α → EventState α × Option ε

/-- `listenerItem` (listener.go): a listener plus its priority. -/
structure listenerItem (ε α : Type) where
  listener : Listener ε α
  priority : Priority

/-- `ListenerOption` (listener.go). -/
def ListenerOption (ε α : Type) : Type := listenerItem ε α → listenerItem ε α

/-- `WithPriority` (listener.go): out-of-range priorities are clamped to the
nearest bound. -/
def WithPriority (p : Priority) : ListenerOption ε α := fun item =>
  if p < Priority.Lowest then { item with priority := Priority.Lowest }
  else if p > Priority.Highest then { item with priority := Priority.Highest }
  else { item with priority := p }

/-- `Topic` (topics.go): the id-keyed listener map (modelled as a lookup
function) and the priority-sorted slice of listener ids. The unused `Name`
field is omitted. -/
structure Topic (ε α : Type) where
  listeners : String → Option (listenerItem ε α)
  sortedListenerIDs : List String

/-- `NewTopic` (topics.go). -/
def NewTopic : Topic ε α :=
  { listeners := fun _ => none, sortedListenerIDs := [] }

/-- Priority of a registered id read through the listener map, defaulting to
`Lowest` for an absent id. Used only in specification predicates
(sortedness); the embedded comparator itself is `Topic.cmpLtAt`, which keeps
the absent-id case explicit because the Go comparator dereferences a nil
pointer (and panics) there. -/
def Topic.priorityOf (t : Topic ε α) (id : String) : Priority :=
  ((t.listeners id).map (fun it => it.priority)).getD Priority.Lowest

/-- One probe of the `slices.BinarySearchFunc` comparator
`int(target) - int(t.listeners[existingID].priority)` (topics.go), asking
whether the comparator is negative at slice position `h` (so the search
continues in the upper half). `none` when the probed slice id is no longer
in the listener map: there the Go code dereferences a nil `*listenerItem`
and panics. -/
def Topic.cmpLtAt (t : Topic ε α) (target : Priority) (h : Nat) : Option Bool :=
  (t.listeners (t.sortedListenerIDs.getD h "")).map
    (fun it => decide (target - it.priority < 0))

/-- The loop of Go's `slices.BinarySearchFunc(x, target, cmp)`:
`i, j := 0, n`; while `i < j`, probe `h := (i+j)/2` and set `i := h+1` when
`cmp(x[h], target) < 0`, else `j := h`; return `i`. A probe that panics
(`none`) aborts the search with `none`. The fuel argument only makes the
recursion structural: the interval at least halves each step, so `n + 1`
steps always suffice and the fuel is never exhausted on the call below. -/
def binarySearchLoop (cmpLt : Nat → Option Bool) : Nat → Nat → Nat → Option Nat
  | 0, i, _ => some i
  | fuel + 1, i, j =>
    if i < j then
      let h := (i + j) / 2
      match cmpLt h with
      | none => none
      | some true => binarySearchLoop cmpLt fuel (h + 1) j
      | some false => binarySearchLoop cmpLt fuel i h
    else some i

/-- Index returned by the `slices.BinarySearchFunc` call of
`Topic.addSortedListenerID`; `none` when the search probes a stale slice id
and the Go code panics. -/
def Topic.binarySearchIndex? (t : Topic ε α) (priority : Priority) : Option Nat :=
  binarySearchLoop (t.cmpLtAt priority) (t.sortedListenerIDs.length + 1) 0
    t.sortedListenerIDs.length

/-- `Topic.addSortedListenerID` (topics.go): `slices.BinarySearchFunc` with
comparator `int(target) - int(t.listeners[existingID].priority)`, then
`slices.Insert` at the returned index. On the panic path (a stale slice id
probed — the Go call crashes and produces no new state) the total model
leaves the topic unchanged; `Topic.insertPanics` marks exactly those inputs
and the emitter-level `On` surfaces them as a panic outcome. -/
def Topic.addSortedListenerID (t : Topic ε α) (id : String) (priority : Priority) : Topic ε α :=
  match t.binarySearchIndex? priority with
  | some index => { t with sortedListenerIDs := t.sortedListenerIDs.insertIdx index id }
  | none => t

/-- Inputs on which the Go sorted insert panics instead of returning. -/
def Topic.insertPanics (t : Topic ε α) (priority : Priority) : Bool :=
  (t.binarySearchIndex? priority).isNone

/-- `Topic.AddListener` (topics.go): build the item with default priority
`Normal`, apply the options, store it in the map under `id`, then insert `id`
into the sorted slice (the map is updated before the sorted insert, as in the
source). -/
def Topic.AddListener (t : Topic ε α) (id : String) (listener : Listener ε α)
    (opts : List (ListenerOption ε α)) : Topic ε α :=
  let item := opts.foldl (fun it opt => opt it) { listener := listener, priority := Priority.Normal }
  let t' : Topic ε α := { t with listeners := fun i => if i = id then some item else t.listeners i }
  t'.addSortedListenerID id item.priority

/-- Whether the Go `AddListener` call panics: after the map update, the
binary-search probe sequence hits a slice id that is no longer registered. -/
def Topic.addListenerPanics (t : Topic ε α) (id : String) (listener : Listener ε α)
    (opts : List (ListenerOption ε α)) : Bool :=
  let item := opts.foldl (fun it opt => opt it) { listener := listener, priority := Priority.Normal }
  Topic.insertPanics
    { t with listeners := fun i => if i = id then some item else t.listeners i }
    item.priority

theorem addSortedListenerID_listeners (t : Topic ε α) (id : String) (p : Priority) :
    (t.addSortedListenerID id p).listeners = t.listeners := by
  rw [Topic.addSortedListenerID]
  cases t.binarySearchIndex? p <;> rfl

theorem addListener_listeners (t : Topic ε α) (id : String) (f : Listener ε α)
    (opts : List (ListenerOption ε α)) :
    (t.AddListener id f opts).listeners = fun i =>
      if i = id then
        some (opts.foldl (fun it opt => opt it)
          { listener := f, priority := Priority.Normal })
      else t.listeners i := by
  rw [Topic.AddListener]
  exact addSortedListenerID_listeners _ _ _

/-- `Topic.RemoveListener` (topics.go): error if the id is unknown, otherwise
delete it from the map and remove its first occurrence from the sorted slice
(`slices.Index` + `slices.Delete`). -/
def Topic.RemoveListener (t : Topic ε α) (id : String) : Topic ε α × Option SentinelError :=
  match t.listeners id with
  | none => (t, some .listenerNotFound)
  | some _ =>
    ({ listeners := fun i => if i = id then none else t.listeners i,
       sortedListenerIDs := t.sortedListenerIDs.erase id }, none)

/-- One listener invocation recorded during a trigger pass: the event state
the listener received, the invoked id and item, and the event state it left. -/
structure TraceEntry (ε α : Type) where
  inp : EventState α
  id : String
  item : listenerItem ε α
  out : EventState α

/-- Result of a trigger pass: final event state, collected errors, and the
trace of listener invocations in order. -/
structure TriggerResult (ε α : Type) where
  event : EventState α
  errs : List ε
  trace : List (TraceEntry ε α)

/-- The loop of `Topic.Trigger` (topics.go): walk the sorted ids, skip ids no
longer in the map, invoke each listener, append its non-nil error, and stop
as soon as the shared event reports `IsAborted` after a call. The invocation
trace is recorded for specification purposes only; `Topic.Trigger` projects
it away. -/
def Topic.triggerLoop (t : Topic ε α) : List String → EventState α → TriggerResult ε α
  | [], e => ⟨e, [], []⟩
  | id :: rest, e =>
    match t.listeners id with
    | none => t.triggerLoop rest e
    | some item =>
      let r := item.listener e
      let errsHere := match r.2 with
        | some err => [err]
        | none => []
      let entry : TraceEntry ε α := ⟨e, id, item, r.1⟩
      if r.1.IsAborted then ⟨r.1, errsHere, [entry]⟩
      else
        let res := t.triggerLoop rest r.1
        ⟨res.event, errsHere ++ res.errs, entry :: res.trace⟩

/-- `Topic.Trigger` with its invocation trace. -/
def Topic.TriggerTrace (t : Topic ε α) (e : EventState α) : TriggerResult ε α :=
  t.triggerLoop t.sortedListenerIDs e

/-- `Topic.Trigger` (topics.go): final event state and the collected errors. -/
def Topic.Trigger (t : Topic ε α) (e : EventState α) : EventState α × List ε :=
  ((t.TriggerTrace e).event, (t.TriggerTrace e).errs)

example :
    (((NewTopic : Topic Unit Nat).AddListener "lo" (fun e => (e, none))
        [WithPriority Priority.Low]).AddListener "hi" (fun e => (e, none))
        [WithPriority Priority.High]).sortedListenerIDs = ["hi", "lo"] := by decide

example :
    ((((NewTopic : Topic Unit Nat).AddListener "x" (fun e => (e, none))
        []).AddListener "y" (fun e => (e, none)) [])).sortedListenerIDs = ["y", "x"] := by decide

theorem findIdx_congr_of_mem (l : List β) (p q : β → Bool)
    (h : ∀ x ∈ l, p x = q x) : l.findIdx p = l.findIdx q := by
  induction l with
  | nil => rfl
  | cons a l ih =>
    rw [List.findIdx_cons, List.findIdx_cons, h a (by simp),
      ih (fun x hx => h x (by simp [hx]))]

theorem insertIdx_findIdx_eq (l : List β) (p : β → Bool) (a : β) :
    l.insertIdx (l.findIdx p) a =
      l.take (l.findIdx p) ++ a :: l.drop (l.findIdx p) := by
  induction l with
  | nil => simp
  | cons b l ih =>
    rw [List.findIdx_cons]
    cases hp : p b with
    | true => simp
    | false => simp [List.insertIdx_succ_cons, ih]

theorem pred_false_of_mem_take_findIdx (l : List β) (p : β → Bool) (x : β)
    (hx : x ∈ l.take (l.findIdx p)) : p x = false := by
  induction l with
  | nil => simp at hx
  | cons b l ih =>
    rw [List.findIdx_cons] at hx
    cases hp : p b with
    | true => rw [hp] at hx; simp at hx
    | false =>
      rw [hp] at hx
      simp only [cond_false, List.take_succ_cons] at hx
      rcases List.mem_cons.mp hx with rfl | hx'
      · exact hp
      · exact ih hx'

/-- A trigger pass over ids that are all registered, with listeners that never
leave the event aborted, invokes exactly the listed ids in list order. -/
theorem triggerLoop_ids_full (t : Topic ε α) (l : List String) (e : EventState α)
    (hpres : ∀ j ∈ l, (t.listeners j).isSome = true)
    (hnoab : ∀ j itm, t.listeners j = some itm →
      ∀ ev, ((itm.listener ev).1).IsAborted = false) :
    (t.triggerLoop l e).trace.map (fun en => en.id) = l := by
  induction l generalizing e with
  | nil => rfl
  | cons id rest ih =>
    cases hj : t.listeners id with
    | none =>
      have := hpres id (by simp)
      rw [hj] at this
      simp at this
    | some itm =>
      have hab := hnoab id itm hj e
      simp only [Topic.triggerLoop, hj]
      rw [if_neg (by simp [hab] : ¬(((itm.listener e).1).IsAborted = true))]
      simp only [List.map_cons, List.cons.injEq, true_and]
      exact ih (itm.listener e).1 (fun j hjm => hpres j (by simp [hjm]))

theorem pred_false_of_lt_findIdx (l : List β) (p : β → Bool) (d : β) :
    ∀ h, h < l.findIdx p → p (l.getD h d) = false := by
  induction l with
  | nil => intro h hh; simp at hh
  | cons a l ih =>
    intro h hh
    rw [List.findIdx_cons] at hh
    cases hp : p a with
    | true => rw [hp] at hh; simp at hh
    | false =>
      rw [hp] at hh
      simp only [cond_false] at hh
      cases h with
      | zero => simpa using hp
      | succ h' =>
        simp only [List.getD_cons_succ]
        exact ih h' (by omega)

theorem pred_true_at_findIdx (l : List β) (p : β → Bool) (d : β) :
    l.findIdx p < l.length → p (l.getD (l.findIdx p) d) = true := by
  induction l with
  | nil => intro h; simp at h
  | cons a l ih =>
    intro h
    rw [List.findIdx_cons] at h ⊢
    cases hp : p a with
    | true => simpa using hp
    | false =>
      rw [hp] at h
      simp only [cond_false] at h ⊢
      simp only [List.getD_cons_succ]
      exact ih (by simpa using h)

/-- Go's lower-bound binary search returns the boundary index `b` of any
probe function that answers `some true` strictly below `b` and `some false`
from `b` up, whenever the fuel covers the interval width. -/
theorem binarySearchLoop_boundary (cmpLt : Nat → Option Bool) (b : Nat) :
    ∀ (fuel i j : Nat), i ≤ b → b ≤ j → j - i ≤ fuel →
      (∀ h, i ≤ h → h < b → cmpLt h = some true) →
      (∀ h, b ≤ h → h < j → cmpLt h = some false) →
      binarySearchLoop cmpLt fuel i j = some b := by
  intro fuel
  induction fuel with
  | zero =>
    intro i j hib hbj hf _ _
    have hi : i = b := by omega
    rw [binarySearchLoop, hi]
  | succ f ih =>
    intro i j hib hbj hf hlt hge
    rw [binarySearchLoop]
    by_cases hij : i < j
    · rw [if_pos hij]
      by_cases hb : (i + j) / 2 < b
      · simp only [hlt ((i + j) / 2) (by omega) hb]
        exact ih ((i + j) / 2 + 1) j (by omega) hbj (by omega)
          (fun h' h1 h2 => hlt h' (by omega) h2) hge
      · simp only [hge ((i + j) / 2) (by omega) (by omega)]
        exact ih i ((i + j) / 2) hib (by omega) (by omega) hlt
          (fun h' h1 h2 => hge h' h1 (by omega))
    · rw [if_neg hij]
      have hi : i = b := by omega
      rw [hi]

/-- On a topic whose listed ids are all registered and whose slice is sorted
by non-increasing priority, Go's binary search lands on the first index whose
existing priority is ≤ the target. -/
theorem binarySearchIndex_eq_findIdx (t : Topic ε α) (p : Priority)
    (hpres : ∀ j ∈ t.sortedListenerIDs, (t.listeners j).isSome = true)
    (hsorted : (t.sortedListenerIDs.map t.priorityOf).Pairwise (· ≥ ·)) :
    t.binarySearchIndex? p =
      some (t.sortedListenerIDs.findIdx fun j => decide (t.priorityOf j ≤ p)) := by
  rw [Topic.binarySearchIndex?]
  apply binarySearchLoop_boundary
  · exact Nat.zero_le _
  · exact List.findIdx_le_length _
  · omega
  · intro h _ hhb
    have hlen : h < t.sortedListenerIDs.length :=
      lt_of_lt_of_le hhb (List.findIdx_le_length _)
    have hmem : t.sortedListenerIDs.getD h "" ∈ t.sortedListenerIDs := by
      rw [List.getD_eq_get _ _ hlen]
      exact List.get_mem _ _ _
    obtain ⟨itm, hitm⟩ := Option.isSome_iff_exists.mp (hpres _ hmem)
    have hpred := pred_false_of_lt_findIdx t.sortedListenerIDs
      (fun j => decide (t.priorityOf j ≤ p)) "" h hhb
    simp only [decide_eq_false_iff_not, not_le] at hpred
    have hprio : t.priorityOf (t.sortedListenerIDs.getD h "") = itm.priority := by
      rw [Topic.priorityOf, hitm]
      rfl
    rw [hprio] at hpred
    rw [Topic.cmpLtAt, hitm, Option.map_some']
    simp [sub_neg, hpred]
  · intro h hbh hlen
    have hmem : t.sortedListenerIDs.getD h "" ∈ t.sortedListenerIDs := by
      rw [List.getD_eq_get _ _ hlen]
      exact List.get_mem _ _ _
    obtain ⟨itm, hitm⟩ := Option.isSome_iff_exists.mp (hpres _ hmem)
    have hprio : t.priorityOf (t.sortedListenerIDs.getD h "") = itm.priority := by
      rw [Topic.priorityOf, hitm]
      rfl
    have hblen : t.sortedListenerIDs.findIdx (fun j => decide (t.priorityOf j ≤ p)) <
        t.sortedListenerIDs.length := by omega
    have hbtrue := pred_true_at_findIdx t.sortedListenerIDs
      (fun j => decide (t.priorityOf j ≤ p)) "" hblen
    simp only [decide_eq_true_eq] at hbtrue
    have hble : t.priorityOf (t.sortedListenerIDs.getD h "") ≤ p := by
      rcases Nat.eq_or_lt_of_le hbh with heq | hlt'
      · rw [← heq]
        exact hbtrue
      · have hget := List.pairwise_iff_get.mp hsorted
          ⟨t.sortedListenerIDs.findIdx (fun j => decide (t.priorityOf j ≤ p)),
            by simpa using hblen⟩
          ⟨h, by simpa using hlen⟩ hlt'
        rw [List.get_map, List.get_map] at hget
        rw [List.getD_eq_get _ _ hlen]
        rw [List.getD_eq_get _ _ hblen] at hbtrue
        exact le_trans hget hbtrue
    rw [hprio] at hble
    rw [Topic.cmpLtAt, hitm, Option.map_some']
    simp [sub_neg, not_lt, hble]

/-- Under registration and sortedness the Go sorted insert is insertion at
the first index whose existing priority is ≤ the target. -/
theorem addSortedListenerID_eq_insert (t : Topic ε α) (id : String) (p : Priority)
    (hpres : ∀ j ∈ t.sortedListenerIDs, (t.listeners j).isSome = true)
    (hsorted : (t.sortedListenerIDs.map t.priorityOf).Pairwise (· ≥ ·)) :
    t.addSortedListenerID id p =
      { t with sortedListenerIDs := (t.sortedListenerIDs.insertIdx
          (t.sortedListenerIDs.findIdx (fun j => decide (t.priorityOf j ≤ p))) id) } := by
  rw [Topic.addSortedListenerID, binarySearchIndex_eq_findIdx t p hpres hsorted]

/-- `AddListener` with a single priority option, computed through
`addSortedListenerID_eq_insert` (the map is updated before the insert, so the
hypotheses read the updated map). -/
theorem addListener_sorted (t : Topic ε α) (id : String) (f : Listener ε α) (p : Priority)
    (hpres : ∀ j ∈ t.sortedListenerIDs, j = id ∨ (t.listeners j).isSome = true)
    (hsorted : (t.sortedListenerIDs.map (Topic.priorityOf
      { t with listeners := fun i =>
          (if i = id then some { listener := f, priority := p } else t.listeners i) })).Pairwise (· ≥ ·)) :
    (t.AddListener id f [fun item => { item with priority := p }]).sortedListenerIDs =
      (t.sortedListenerIDs.insertIdx
        (t.sortedListenerIDs.findIdx (fun j => decide ((Topic.priorityOf
          { t with listeners := fun i =>
              (if i = id then some { listener := f, priority := p } else t.listeners i) }) j ≤ p))) id) := by
  have hpres' : ∀ j ∈ t.sortedListenerIDs,
      ((fun i => if i = id then some { listener := f, priority := p } else t.listeners i)
        j).isSome = true := by
    intro j hj
    by_cases hje : j = id
    · simp [hje]
    · rcases hpres j hj with h | h
      · exact absurd h hje
      · simpa [hje] using h
  show (({ t with listeners := fun i =>
      (if i = id then some { listener := f, priority := p } else t.listeners i) } :
      Topic ε α).addSortedListenerID id p).sortedListenerIDs = _
  rw [addSortedListenerID_eq_insert _ id p hpres' hsorted]

/-- Topic with a duplicate-id history: x at 100, then y at 50, then x again
at 0 (the map overwrite happens before the insert); Go's binary search then
yields the slice ["x","y","x"], which is not descending-sorted under the
current map (priorities [0, 50, 0]). -/
def tCE9 : Topic Unit Nat :=
  (((NewTopic : Topic Unit Nat).AddListener "x" (fun e => (e, none))
      [fun item => { item with priority := 100 }]).AddListener "y" (fun e => (e, none))
      [fun item => { item with priority := 50 }]).AddListener "x" (fun e => (e, none))
      [fun item => { item with priority := 0 }]

/-- C9 counterexample: on a reachable topic with a duplicate-id history the
slice is not sorted, and the binary search does not land at the first
≤-priority index: `tCE9` has slice ["x","y","x"] with "x" at priority 0;
adding "new" at the equal priority 0 probes "y" (50, go right) and then the
final "x" (0, go left) and returns index 2, so the new id lands after the
existing equal-priority "x" at index 0 — not before it, as the claim
requires. -/
theorem addListener_tie_counterexample :
    (("x" : String) ∈ tCE9.sortedListenerIDs ∧ tCE9.priorityOf "x" = 0 ∧
      ("new" : String) ∉ tCE9.sortedListenerIDs) ∧
    (tCE9.AddListener "new" (fun e => (e, none))
        [fun item => { item with priority := 0 }]).sortedListenerIDs =
      ["x", "y", "new", "x"] ∧
    ¬((tCE9.AddListener "new" (fun e => (e, none))
        [fun item => { item with priority := 0 }]).sortedListenerIDs.indexOf "new" <
      (tCE9.AddListener "new" (fun e => (e, none))
        [fun item => { item with priority := 0 }]).sortedListenerIDs.indexOf "x") := by
  refine ⟨⟨by decide, by decide, by decide⟩, by decide, by decide⟩

/-- C9 (amended): on a topic whose listed ids are all registered and whose
slice is descending-sorted under the current map — the invariant of every
fresh-id history — `AddListener` at a priority already present inserts the
new id at the first index whose existing priority is ≤ the new priority,
strictly before every existing listener of that same priority (everything
kept ahead of the new id has strictly greater priority), and a full (all ids
registered, no listener aborting) Trigger pass then invokes the ids exactly
in that order, so the newer equal-priority listener runs before the older
ones. -/
theorem addListener_equal_priority_lifo (t t' : Topic ε α) (id id' : String)
    (f : Listener ε α) (p : Priority)
    (hpres : ∀ j ∈ t.sortedListenerIDs, (t.listeners j).isSome = true)
    (hsorted : (t.sortedListenerIDs.map t.priorityOf).Pairwise (· ≥ ·))
    (ht' : t' = t.AddListener id f [fun item => { item with priority := p }])
    (hfresh : id ∉ t.sortedListenerIDs)
    (hmem : id' ∈ t.sortedListenerIDs)
    (hpr : t.priorityOf id' = p) :
    (t'.sortedListenerIDs =
        t.sortedListenerIDs.take
            (t.sortedListenerIDs.findIdx fun j => decide (t.priorityOf j ≤ p)) ++
          id :: t.sortedListenerIDs.drop
            (t.sortedListenerIDs.findIdx fun j => decide (t.priorityOf j ≤ p))) ∧
    (∀ j ∈ t.sortedListenerIDs.take
        (t.sortedListenerIDs.findIdx fun j => decide (t.priorityOf j ≤ p)),
      p < t.priorityOf j) ∧
    id' ∈ t.sortedListenerIDs.drop
        (t.sortedListenerIDs.findIdx fun j => decide (t.priorityOf j ≤ p)) ∧
    ((∀ j ∈ t'.sortedListenerIDs, (t'.listeners j).isSome = true) →
      (∀ j itm, t'.listeners j = some itm →
        ∀ ev, ((itm.listener ev).1).IsAborted = false) →
      ∀ e, (t'.TriggerTrace e).trace.map (fun en => en.id) = t'.sortedListenerIDs) := by
  have hmapT' : t.sortedListenerIDs.map
      (Topic.priorityOf
        { t with listeners := fun i =>
            (if i = id then some { listener := f, priority := p } else t.listeners i) }) =
      t.sortedListenerIDs.map t.priorityOf := by
    refine List.map_eq_map_iff.mpr (fun j hj => ?_)
    have hne : ¬(j = id) := fun hh => hfresh (hh ▸ hj)
    simp [Topic.priorityOf, if_neg hne]
  have hsortedlist : t'.sortedListenerIDs =
      t.sortedListenerIDs.take
          (t.sortedListenerIDs.findIdx fun j => decide (t.priorityOf j ≤ p)) ++
        id :: t.sortedListenerIDs.drop
          (t.sortedListenerIDs.findIdx fun j => decide (t.priorityOf j ≤ p)) := by
    subst ht'
    rw [addListener_sorted t id f p
      (fun j hj => Or.inr (hpres j hj))
      (by rw [hmapT']; exact hsorted)]
    rw [findIdx_congr_of_mem t.sortedListenerIDs _
        (fun j => decide (t.priorityOf j ≤ p))
        (fun j hj => by
          have hne : ¬(j = id) := fun hh => hfresh (hh ▸ hj)
          simp [Topic.priorityOf, if_neg hne])]
    exact insertIdx_findIdx_eq _ _ _
  refine ⟨hsortedlist, ?_, ?_, ?_⟩
  · intro j hj
    have := pred_false_of_mem_take_findIdx _ _ _ hj
    simp only [decide_eq_false_iff_not, not_le] at this
    exact this
  · have hsplit := List.take_append_drop
      (t.sortedListenerIDs.findIdx fun j => decide (t.priorityOf j ≤ p)) t.sortedListenerIDs
    rcases List.mem_append.mp (hsplit ▸ hmem) with hin | hin
    · have := pred_false_of_mem_take_findIdx _ _ _ hin
      rw [hpr] at this
      simp at this
    · exact hin
  · intro hpresAll hnoab e
    exact triggerLoop_ids_full t' t'.sortedListenerIDs e hpresAll hnoab

theorem addListener_equal_priority_lifo_witness :
    (("new" : String) ∉ (((NewTopic : Topic Unit Nat).AddListener "old"
        (fun e => (e, none)) [fun item => { item with priority := 50 }]).sortedListenerIDs) ∧
      ("old" : String) ∈ (((NewTopic : Topic Unit Nat).AddListener "old"
        (fun e => (e, none)) [fun item => { item with priority := 50 }]).sortedListenerIDs)) ∧
    (((((NewTopic : Topic Unit Nat).AddListener "old" (fun e => (e, none))
        [fun item => { item with priority := 50 }]).AddListener "new" (fun e => (e, none))
        [fun item => { item with priority := 50 }]).sortedListenerIDs) =
      [] ++ "new" :: ["old"]) := by
  have base := addListener_equal_priority_lifo
    ((NewTopic : Topic Unit Nat).AddListener "old" (fun e => (e, none))
      [fun item => { item with priority := 50 }])
    (((NewTopic : Topic Unit Nat).AddListener "old" (fun e => (e, none))
      [fun item => { item with priority := 50 }]).AddListener "new" (fun e => (e, none))
      [fun item => { item with priority := 50 }])
    "new" "old" (fun e => (e, none)) 50 (by decide) (by decide) rfl (by decide)
    (by decide) (by decide)
  exact ⟨⟨by decide, by decide⟩, base.1⟩

/-- C10: two `AddListener` calls with the same id leave the second item as the
only map entry for that id while the id occupies two slots of the sorted
sequence, so a trigger pass (whose second listener does not leave the event
aborted after its first invocation) invokes the second listener exactly twice
and the first listener never. -/
theorem addListener_duplicate_id (id : String) (f1 f2 : Listener ε α)
    (p1 p2 : Priority) (t : Topic ε α)
    (ht : t = ((NewTopic : Topic ε α).AddListener id f1
        [fun item => { item with priority := p1 }]).AddListener id f2
        [fun item => { item with priority := p2 }])
    (e : EventState α) (hnoab : ((f2 e).1).IsAborted = false) :
    t.listeners id = some ⟨f2, p2⟩ ∧
    t.sortedListenerIDs = [id, id] ∧
    (t.TriggerTrace e).trace =
      [⟨e, id, ⟨f2, p2⟩, (f2 e).1⟩,
       ⟨(f2 e).1, id, ⟨f2, p2⟩, (f2 ((f2 e).1)).1⟩] := by
  subst ht
  have hmap : (((NewTopic : Topic ε α).AddListener id f1
      [fun item => { item with priority := p1 }]).AddListener id f2
      [fun item => { item with priority := p2 }]).listeners id = some ⟨f2, p2⟩ := by
    rw [addListener_listeners]
    simp
  have h1 : (((NewTopic : Topic ε α).AddListener id f1
      [fun item => { item with priority := p1 }]).sortedListenerIDs) = [id] := by
    rw [addListener_sorted (NewTopic : Topic ε α) id f1 p1
      (by intro j hj; simp [NewTopic] at hj) (by simp [NewTopic])]
    simp [NewTopic]
  have hsorted : (((NewTopic : Topic ε α).AddListener id f1
      [fun item => { item with priority := p1 }]).AddListener id f2
      [fun item => { item with priority := p2 }]).sortedListenerIDs = [id, id] := by
    rw [addListener_sorted _ id f2 p2
      (by intro j hj; rw [h1] at hj; exact Or.inl (List.mem_singleton.mp hj))
      (by rw [h1]; simp)]
    rw [h1]
    simp [Topic.priorityOf, List.findIdx_cons]
  refine ⟨hmap, hsorted, ?_⟩
  rw [Topic.TriggerTrace, hsorted]
  simp only [Topic.triggerLoop, hmap]
  rw [if_neg (by simp [hnoab] : ¬(((f2 e).1).IsAborted = true))]
  by_cases h2 : ((f2 ((f2 e).1)).1).IsAborted = true <;>
    simp [Topic.triggerLoop, hmap, h2]

theorem addListener_duplicate_id_witness :
    ((((fun e => (e, none) : Listener Unit Nat) (NewBaseEvent "t" 0)).1).IsAborted = false) ∧
    ((((NewTopic : Topic Unit Nat).AddListener "dup"
        (fun e => (e.SetPayload 1, none))
        [fun item => { item with priority := 75 }]).AddListener "dup"
        (fun e => (e, none))
        [fun item => { item with priority := 25 }]).listeners "dup" =
      some ⟨fun e => (e, none), 25⟩ ∧
    (((NewTopic : Topic Unit Nat).AddListener "dup"
        (fun e => (e.SetPayload 1, none))
        [fun item => { item with priority := 75 }]).AddListener "dup"
        (fun e => (e, none))
        [fun item => { item with priority := 25 }]).sortedListenerIDs = ["dup", "dup"] ∧
    (((((NewTopic : Topic Unit Nat).AddListener "dup"
        (fun e => (e.SetPayload 1, none))
        [fun item => { item with priority := 75 }]).AddListener "dup"
        (fun e => (e, none))
        [fun item => { item with priority := 25 }]).TriggerTrace (NewBaseEvent "t" 0)).trace =
      [⟨NewBaseEvent "t" 0, "dup", ⟨fun e => (e, none), 25⟩,
          ((fun e => (e, none) : Listener Unit Nat) (NewBaseEvent "t" 0)).1⟩,
       ⟨((fun e => (e, none) : Listener Unit Nat) (NewBaseEvent "t" 0)).1, "dup",
          ⟨fun e => (e, none), 25⟩,
          ((fun e => (e, none) : Listener Unit Nat)
            (((fun e => (e, none) : Listener Unit Nat) (NewBaseEvent "t" 0)).1)).1⟩])) :=
  ⟨rfl,
   addListener_duplicate_id "dup" (fun e => (e.SetPayload 1, none)) (fun e => (e, none))
     75 25 _ rfl (NewBaseEvent "t" 0) rfl⟩

/-- Every trigger invocation except possibly the last leaves the event
un-aborted: the loop breaks as soon as a listener's output is aborted. -/
theorem triggerLoop_stops_on_abort (t : Topic ε α) (l : List String) (e : EventState α) :
    ∀ en ∈ (t.triggerLoop l e).trace.dropLast, en.out.IsAborted = false := by
  induction l generalizing e with
  | nil => intro en hen; simp [Topic.triggerLoop] at hen
  | cons id rest ih =>
    intro en hen
    rw [Topic.triggerLoop] at hen
    cases hj : t.listeners id with
    | none =>
      simp only [hj] at hen
      exact ih e en hen
    | some itm =>
      simp only [hj] at hen
      by_cases hab : ((itm.listener e).1).IsAborted = true
      · rw [if_pos hab] at hen
        simp at hen
      · rw [if_neg hab] at hen
        simp only at hen
        cases htr : (t.triggerLoop rest (itm.listener e).1).trace with
        | nil => rw [htr] at hen; simp at hen
        | cons x xs =>
          rw [htr, List.dropLast_cons₂] at hen
          rcases List.mem_cons.mp hen with rfl | hen'
          · simpa using hab
          · exact ih (itm.listener e).1 en (by rw [htr]; exact hen')

/-- An already-aborted event on a non-empty id list whose head ids are all
registered and whose listeners keep an aborted event aborted produces exactly
one invocation: the first listener runs, then the post-call abort check
fires. -/
theorem triggerLoop_aborted_once (t : Topic ε α) (l : List String) (e : EventState α)
    (habort : e.IsAborted = true) (hne : l ≠ [])
    (hpres : ∀ j ∈ l, (t.listeners j).isSome = true)
    (hkeep : ∀ j itm, t.listeners j = some itm →
      ∀ ev, ev.IsAborted = true → ((itm.listener ev).1).IsAborted = true) :
    (t.triggerLoop l e).trace.length = 1 := by
  cases l with
  | nil => exact absurd rfl hne
  | cons id rest =>
    cases hj : t.listeners id with
    | none =>
      have := hpres id (by simp)
      rw [hj] at this
      simp at this
    | some itm =>
      rw [Topic.triggerLoop]
      simp only [hj]
      rw [if_pos (hkeep id itm hj e habort)]
      rfl

/-- C3 counterexample: `Topic.Trigger` on an already-aborted event and a
non-empty registry can invoke two listeners, because the first listener may
clear the abort flag with `SetAborted(false)` and the post-call check then
lets iteration continue. The claimed "exactly one listener" is therefore
false as stated. -/
theorem trigger_aborted_two_listeners_counterexample :
    (((NewBaseEvent "t" (0 : Nat)).SetAborted true).IsAborted = true) ∧
    ((((NewTopic : Topic Unit Nat).AddListener "clear"
        (fun e => (e.SetAborted false, none))
        [fun item => { item with priority := 75 }]).AddListener "later"
        (fun e => (e, none))
        [fun item => { item with priority := 25 }]).sortedListenerIDs ≠ []) ∧
    (((((NewTopic : Topic Unit Nat).AddListener "clear"
        (fun e => (e.SetAborted false, none))
        [fun item => { item with priority := 75 }]).AddListener "later"
        (fun e => (e, none))
        [fun item => { item with priority := 25 }]).TriggerTrace
          ((NewBaseEvent "t" (0 : Nat)).SetAborted true)).trace.length = 2) ∧
    ¬(((((NewTopic : Topic Unit Nat).AddListener "clear"
        (fun e => (e.SetAborted false, none))
        [fun item => { item with priority := 75 }]).AddListener "later"
        (fun e => (e, none))
        [fun item => { item with priority := 25 }]).TriggerTrace
          ((NewBaseEvent "t" (0 : Nat)).SetAborted true)).trace.length = 1) := by
  refine ⟨by decide, by decide, by decide, by decide⟩

/-- C3 (amended): during a trigger pass no listener runs after one whose
invocation left the abort flag set (abort halts the listener's own registry
immediately); and `Topic.Trigger` on an already-aborted event over a
non-empty id list whose ids are all registered invokes exactly one listener,
provided no listener clears an already-set abort flag. -/
theorem trigger_abort_semantics (t : Topic ε α) (e : EventState α) :
    (∀ en ∈ (t.TriggerTrace e).trace.dropLast, en.out.IsAborted = false) ∧
    (e.IsAborted = true → t.sortedListenerIDs ≠ [] →
      (∀ j ∈ t.sortedListenerIDs, (t.listeners j).isSome = true) →
      (∀ j itm, t.listeners j = some itm →
        ∀ ev, ev.IsAborted = true → ((itm.listener ev).1).IsAborted = true) →
      (t.TriggerTrace e).trace.length = 1) :=
  ⟨triggerLoop_stops_on_abort t t.sortedListenerIDs e,
   fun habort hne hpres hkeep =>
     triggerLoop_aborted_once t t.sortedListenerIDs e habort hne hpres hkeep⟩

theorem trigger_abort_semantics_witness :
    ((((NewBaseEvent "t" (0 : Nat)).SetAborted true).IsAborted = true) ∧
      ((NewTopic : Topic Unit Nat).AddListener "keep"
        (fun e => (e.SetAborted true, none)) []).sortedListenerIDs ≠ []) ∧
    ((∀ en ∈ (((NewTopic : Topic Unit Nat).AddListener "keep"
        (fun e => (e.SetAborted true, none)) []).TriggerTrace
          ((NewBaseEvent "t" (0 : Nat)).SetAborted true)).trace.dropLast,
        en.out.IsAborted = false) ∧
      (((NewTopic : Topic Unit Nat).AddListener "keep"
        (fun e => (e.SetAborted true, none)) []).TriggerTrace
          ((NewBaseEvent "t" (0 : Nat)).SetAborted true)).trace.length = 1) := by
  have base := trigger_abort_semantics
    ((NewTopic : Topic Unit Nat).AddListener "keep" (fun e => (e.SetAborted true, none)) [])
    ((NewBaseEvent "t" (0 : Nat)).SetAborted true)
  refine ⟨⟨by decide, by decide⟩, base.1, base.2 (by decide) (by decide) (by decide) ?_⟩
  intro j itm h ev hev
  by_cases hj : j = "keep"
  · subst hj
    have hitm : itm = ⟨fun e => (e.SetAborted true, none), Priority.Normal⟩ := by
      have h' := h
      rw [addListener_listeners] at h'
      simp only [if_pos rfl] at h'
      exact (Option.some.injEq _ _ ▸ h').symm
    subst hitm
    rfl
  · rw [addListener_listeners] at h
    simp only [if_neg hj, NewTopic] at h
    exact Option.noConfusion h

theorem mem_insert_findIdx (l : List β) (p : β → Bool) (a x : β)
    (hx : x ∈ l.insertIdx (l.findIdx p) a) : x = a ∨ x ∈ l := by
  rw [insertIdx_findIdx_eq] at hx
  rcases List.mem_append.mp hx with h | h
  · exact Or.inr (List.mem_of_mem_take h)
  · rcases List.mem_cons.mp h with rfl | h
    · exact Or.inl rfl
    · exact Or.inr (List.mem_of_mem_drop h)

theorem nodup_insert_findIdx (l : List β) (p : β → Bool) (a : β)
    (hl : l.Nodup) (ha : a ∉ l) : (l.insertIdx (l.findIdx p) a).Nodup := by
  induction l with
  | nil => simp
  | cons b l ih =>
    rw [List.findIdx_cons]
    cases hpb : p b with
    | true =>
      simp only [cond_true, List.insertIdx_zero]
      exact List.nodup_cons.mpr ⟨ha, hl⟩
    | false =>
      simp only [cond_false, List.insertIdx_succ_cons]
      rcases List.nodup_cons.mp hl with ⟨hbl, hl'⟩
      refine List.nodup_cons.mpr
        ⟨?_, ih hl' (fun h => ha (List.mem_cons_of_mem _ h))⟩
      intro hmem
      rcases mem_insert_findIdx l p a b hmem with rfl | h
      · exact ha (List.mem_cons_self _ _)
      · exact hbl h

theorem pairwise_ge_insert_findIdx (pr : β → Int) (x : β) (l : List β)
    (hl : (l.map pr).Pairwise (· ≥ ·)) :
    ((l.insertIdx (l.findIdx fun j => decide (pr j ≤ pr x)) x).map pr).Pairwise
      (· ≥ ·) := by
  induction l with
  | nil => simp
  | cons b l ih =>
    rw [List.map_cons, List.pairwise_cons] at hl
    obtain ⟨hb, hl'⟩ := hl
    rw [List.findIdx_cons]
    cases hpb : decide (pr b ≤ pr x) with
    | true =>
      have hble : pr b ≤ pr x := of_decide_eq_true hpb
      simp only [cond_true, List.insertIdx_zero, List.map_cons]
      refine List.pairwise_cons.mpr ⟨?_, List.pairwise_cons.mpr ⟨hb, hl'⟩⟩
      intro y hy
      rcases List.mem_cons.mp hy with rfl | hy'
      · exact hble
      · exact le_trans (hb y hy') hble
    | false =>
      have hbgt : pr x < pr b := lt_of_not_le (of_decide_eq_false hpb)
      simp only [cond_false, List.insertIdx_succ_cons, List.map_cons]
      refine List.pairwise_cons.mpr ⟨?_, ih hl'⟩
      intro y hy
      rw [List.mem_map] at hy
      obtain ⟨z, hz, rfl⟩ := hy
      rcases mem_insert_findIdx l _ x z hz with rfl | hzl
      · exact le_of_lt hbgt
      · exact hb (pr z) (List.mem_map_of_mem pr hzl)

/-- Well-formedness of a Topic: no duplicate ids in the sorted slice, the
slice lists exactly the registered ids, and the slice is sorted by
non-increasing priority (read through the listener map). -/
def Topic.WellFormed (t : Topic ε α) : Prop :=
  t.sortedListenerIDs.Nodup ∧
  (∀ id, id ∈ t.sortedListenerIDs ↔ (t.listeners id).isSome = true) ∧
  (t.sortedListenerIDs.map t.priorityOf).Pairwise (· ≥ ·)

theorem wellFormed_add_core (t : Topic ε α) (id : String) (item : listenerItem ε α)
    (hwf : t.WellFormed) (hfresh : t.listeners id = none) :
    Topic.WellFormed (Topic.addSortedListenerID
      { t with listeners := fun i => if i = id then some item else t.listeners i }
      id item.priority) := by
  obtain ⟨hnd, hiff, hpw⟩ := hwf
  have hidnot : id ∉ t.sortedListenerIDs := by
    intro h
    have h2 := (hiff id).mp h
    rw [hfresh] at h2
    simp at h2
  have hpid :
      Topic.priorityOf
        { t with listeners := fun i => if i = id then some item else t.listeners i } id =
      item.priority := by
    simp [Topic.priorityOf]
  have hmap :
      t.sortedListenerIDs.map
        (Topic.priorityOf
          { t with listeners := fun i => if i = id then some item else t.listeners i }) =
      t.sortedListenerIDs.map t.priorityOf := by
    refine List.map_eq_map_iff.mpr (fun j hj => ?_)
    have hne : ¬(j = id) := fun hh => hidnot (hh ▸ hj)
    simp [Topic.priorityOf, if_neg hne]
  have hpres' : ∀ j ∈ t.sortedListenerIDs,
      ((fun i => if i = id then some item else t.listeners i) j).isSome = true := by
    intro j hj
    by_cases hje : j = id
    · simp [hje]
    · simp only [if_neg hje]
      exact (hiff j).mp hj
  have hsorted' : (t.sortedListenerIDs.map
      (Topic.priorityOf
        { t with listeners := fun i => if i = id then some item else t.listeners i })).Pairwise
      (· ≥ ·) := by
    rw [hmap]
    exact hpw
  rw [addSortedListenerID_eq_insert _ id item.priority hpres' hsorted']
  refine ⟨?_, ?_, ?_⟩
  · exact nodup_insert_findIdx _ _ _ hnd hidnot
  · intro j
    rw [List.mem_insertIdx (List.findIdx_le_length _)]
    by_cases hje : j = id
    · subst hje
      simp
    · simp only [hje, false_or, if_neg hje]
      exact hiff j
  · rw [← hpid]
    exact pairwise_ge_insert_findIdx _ id t.sortedListenerIDs (hmap ▸ hpw)

theorem wellFormed_addListener (t : Topic ε α) (id : String) (f : Listener ε α)
    (opts : List (ListenerOption ε α)) (hwf : t.WellFormed)
    (hfresh : t.listeners id = none) :
    (t.AddListener id f opts).WellFormed := by
  exact wellFormed_add_core t id _ hwf hfresh

theorem wellFormed_removeListener (t : Topic ε α) (id : String)
    (hwf : t.WellFormed) : ((t.RemoveListener id).1).WellFormed := by
  obtain ⟨hnd, hiff, hpw⟩ := hwf
  cases hj : t.listeners id with
  | none =>
    simp only [Topic.RemoveListener, hj]
    exact ⟨hnd, hiff, hpw⟩
  | some itm =>
    simp only [Topic.RemoveListener, hj]
    refine ⟨hnd.erase id, ?_, ?_⟩
    · intro j
      rw [hnd.mem_erase_iff]
      constructor
      · rintro ⟨hne, hmem⟩
        have h2 := (hiff j).mp hmem
        simpa [if_neg hne] using h2
      · intro hsome
        by_cases hje : j = id
        · subst hje
          simp at hsome
        · refine ⟨hje, (hiff j).mpr ?_⟩
          simpa [if_neg hje] using hsome
    · have hsub : (t.sortedListenerIDs.erase id).Sublist t.sortedListenerIDs :=
        List.erase_sublist id t.sortedListenerIDs
      have hmap2 :
          (t.sortedListenerIDs.erase id).map
            (Topic.priorityOf
              ⟨fun i => if i = id then none else t.listeners i,
               t.sortedListenerIDs.erase id⟩) =
          (t.sortedListenerIDs.erase id).map t.priorityOf := by
        refine List.map_eq_map_iff.mpr (fun j hj2 => ?_)
        have hne : ¬(j = id) := (hnd.mem_erase_iff.mp hj2).1
        simp [Topic.priorityOf, if_neg hne]
      rw [hmap2]
      exact List.Pairwise.sublist (hsub.map _) hpw

/-- Topic states reachable from `NewTopic` by `AddListener` calls with ids
not already registered and arbitrary `RemoveListener` calls. -/
inductive Topic.ReachableFresh : Topic ε α → Prop where
  | init : Topic.ReachableFresh NewTopic
  | add (t : Topic ε α) (id : String) (f : Listener ε α)
      (opts : List (ListenerOption ε α)) :
      Topic.ReachableFresh t → t.listeners id = none →
      Topic.ReachableFresh (t.AddListener id f opts)
  | remove (t : Topic ε α) (id : String) :
      Topic.ReachableFresh t → Topic.ReachableFresh (t.RemoveListener id).1

theorem wellFormed_of_reachableFresh (t : Topic ε α) (h : t.ReachableFresh) :
    t.WellFormed := by
  induction h with
  | init =>
    exact ⟨List.nodup_nil, fun id => by simp [NewTopic], List.Pairwise.nil⟩
  | add t id f opts hr hfresh ih => exact wellFormed_addListener t id f opts ih hfresh
  | remove t id hr ih => exact wellFormed_removeListener t id ih

/-- The ids invoked by a trigger pass form an order-preserving sublist of the
walked id list, and every invoked item is the map entry of its id. -/
theorem triggerLoop_trace_sublist (t : Topic ε α) (l : List String) (e : EventState α) :
    ((t.triggerLoop l e).trace.map (fun en => en.id)).Sublist l ∧
    (∀ en ∈ (t.triggerLoop l e).trace, t.listeners en.id = some en.item) := by
  induction l generalizing e with
  | nil =>
    refine ⟨by simp [Topic.triggerLoop], ?_⟩
    intro en hen
    simp [Topic.triggerLoop] at hen
  | cons id rest ih =>
    cases hj : t.listeners id with
    | none =>
      rw [Topic.triggerLoop]
      simp only [hj]
      exact ⟨(ih e).1.cons id, (ih e).2⟩
    | some itm =>
      rw [Topic.triggerLoop]
      simp only [hj]
      by_cases hab : ((itm.listener e).1).IsAborted = true
      · rw [if_pos hab]
        refine ⟨?_, ?_⟩
        · simp only [List.map_cons, List.map_nil]
          exact (List.nil_sublist rest).cons₂ id
        · intro en hen
          rcases List.mem_singleton.mp hen with rfl
          exact hj
      · rw [if_neg hab]
        refine ⟨?_, ?_⟩
        · simpa using ((ih (itm.listener e).1).1).cons₂ id
        · intro en hen
          rcases List.mem_cons.mp hen with rfl | hen'
          · exact hj
          · exact (ih (itm.listener e).1).2 en hen'

/-- C5 counterexample: with a repeated listener id (possible when a custom id
generator repeats values), an `AddListener` sequence drives the sorted slice
out of descending-priority order: adding "x" at 100, "y" at 50 and "x" again
at 0 overwrites the map entry of "x" before the insert, the binary search on
["x","y"] (comparator values 0 and -50 for target 0) returns index 2, and
the slice becomes ["x","y","x"] whose priorities read [0, 50, 0] — not
sorted descending. The claim quantified over every AddListener sequence is
therefore false as stated. -/
theorem topic_sorted_counterexample :
    tCE9.sortedListenerIDs = ["x", "y", "x"] ∧
    tCE9.sortedListenerIDs.map tCE9.priorityOf = [0, 50, 0] ∧
    ¬ ((tCE9.sortedListenerIDs.map tCE9.priorityOf).Pairwise (· ≥ ·)) := by
  refine ⟨by decide, by decide, by decide⟩

/-- C5 (amended): for every Topic reached by AddListener calls whose ids are
not already registered (fresh ids) and arbitrary RemoveListener calls, the
sorted id sequence is sorted in descending order of the registered
priorities; Trigger invokes listeners in that sequence order (the invoked-id
trace of any pass is an order-preserving sublist of the sequence); and when
the registered priorities are pairwise distinct, the invoked listeners'
priorities are strictly descending. -/
theorem topic_sorted_invariant_trigger_order (t : Topic ε α)
    (hreach : t.ReachableFresh) :
    (t.sortedListenerIDs.map t.priorityOf).Pairwise (· ≥ ·) ∧
    (∀ e : EventState α,
      ((t.TriggerTrace e).trace.map (fun en => en.id)).Sublist
        t.sortedListenerIDs) ∧
    ((t.sortedListenerIDs.map t.priorityOf).Nodup →
      ∀ e : EventState α,
        ((t.TriggerTrace e).trace.map (fun en => en.item.priority)).Pairwise
          (· > ·)) := by
  obtain ⟨hnd, hiff, hpw⟩ := wellFormed_of_reachableFresh t hreach
  refine ⟨hpw, fun e => (triggerLoop_trace_sublist t t.sortedListenerIDs e).1, ?_⟩
  intro hnodup e
  obtain ⟨hsub, hlook⟩ := triggerLoop_trace_sublist t t.sortedListenerIDs e
  have hmapeq : (t.TriggerTrace e).trace.map (fun en => en.item.priority) =
      ((t.TriggerTrace e).trace.map (fun en => en.id)).map t.priorityOf := by
    rw [List.map_map]
    refine List.map_eq_map_iff.mpr (fun en hen => ?_)
    have hl := hlook en hen
    simp [Topic.priorityOf, Function.comp, hl]
  rw [hmapeq]
  have hstrict : (t.sortedListenerIDs.map t.priorityOf).Pairwise (· > ·) := by
    have hcomb := List.Pairwise.and hpw hnodup
    exact hcomb.imp (fun hh => lt_of_le_of_ne hh.1 (Ne.symm hh.2))
  exact List.Pairwise.sublist (hsub.map t.priorityOf) hstrict

theorem topic_sorted_invariant_trigger_order_witness :
    (((((NewTopic : Topic Unit Nat).AddListener "a" (fun e => (e, none))
        [fun item => { item with priority := 75 }]).AddListener "b"
        (fun e => (e, none))
        [fun item => { item with priority := 25 }]).sortedListenerIDs.map
      ((((NewTopic : Topic Unit Nat).AddListener "a" (fun e => (e, none))
        [fun item => { item with priority := 75 }]).AddListener "b"
        (fun e => (e, none))
        [fun item => { item with priority := 25 }]).priorityOf)).Pairwise (· ≥ ·)) ∧
    ((((((NewTopic : Topic Unit Nat).AddListener "a" (fun e => (e, none))
        [fun item => { item with priority := 75 }]).AddListener "b"
        (fun e => (e, none))
        [fun item => { item with priority := 25 }]).TriggerTrace
        (NewBaseEvent "t" (0 : Nat))).trace.map (fun en => en.id)).Sublist
      ((((NewTopic : Topic Unit Nat).AddListener "a" (fun e => (e, none))
        [fun item => { item with priority := 75 }]).AddListener "b"
        (fun e => (e, none))
        [fun item => { item with priority := 25 }]).sortedListenerIDs)) := by
  have hfresh : (((NewTopic : Topic Unit Nat).AddListener "a" (fun e => (e, none))
      [fun item => { item with priority := 75 }]).listeners "b") = none := by
    rw [addListener_listeners]
    simp [NewTopic]
  have hreach := Topic.ReachableFresh.add _ "b" (fun e => (e, none))
    [fun item => { item with priority := 25 }]
    (Topic.ReachableFresh.add (NewTopic : Topic Unit Nat) "a" (fun e => (e, none))
      [fun item => { item with priority := 75 }] Topic.ReachableFresh.init rfl)
    hfresh
  have base := topic_sorted_invariant_trigger_order _ hreach
  exact ⟨base.1, base.2.1 (NewBaseEvent "t" (0 : Nat))⟩

/-- `isValidTopicName` (utils.go): the name must be non-empty and contain
neither `?` nor `[` (`strings.ContainsAny(topicName, "?[")`). -/
def isValidTopicName (topicName : String) : Bool :=
  !(decide (topicName = "")) &&
    !(topicName.data.contains '?' || topicName.data.contains '[')

/-- `MemoryEmitter` (memory.go): the `sync.Map` of topics is an association
list in one fixed `Range` iteration order; the swappable handler slot is a
plain field read where the source loads the atomic pointer; the impure id
generator is a deterministic stream read at `idCounter`; `closed` is the
atomic flag. The worker pool and the panic handler are not modelled (no
claim below depends on them, and no embedded listener panics). -/
structure MemoryEmitter (ε α : Type) where
  topics : List (String × Topic ε α)
  errorHandler : EventState α → ε → Option ε
  idGenerator : Nat → String
  idCounter : Nat
  closed : Bool
  errChanBufferSize : Nat

/-- `sync.Map.Load` over the association list. -/
def topicsLoad (ts : List (String × Topic ε α)) (name : String) : Option (Topic ε α) :=
  (ts.find? (fun p => decide (p.1 = name))).map (fun p => p.2)

/-- Write-back of a mutated topic: Go mutates the `*Topic` in place through
the pointer obtained from the map, which in the value model replaces the
entry of `name`. -/
def topicsStore (ts : List (String × Topic ε α)) (name : String) (t : Topic ε α) :
    List (String × Topic ε α) :=
  ts.map (fun p => if p.1 = name then (name, t) else p)

/-- `MemoryEmitter.EnsureTopic` (memory.go): `LoadOrStore(topicName, NewTopic())`. -/
def MemoryEmitter.EnsureTopic (m : MemoryEmitter ε α) (topicName : String) :
    Topic ε α × MemoryEmitter ε α :=
  match topicsLoad m.topics topicName with
  | some t => (t, m)
  | none => (NewTopic, { m with topics := m.topics ++ [(topicName, NewTopic)] })

/-- `MemoryEmitter.GetTopic` (memory.go): `TopicNotFound` when the name is
not in the map. -/
def MemoryEmitter.GetTopic (m : MemoryEmitter ε α) (topicName : String) :
    Except SentinelError (Topic ε α) :=
  match topicsLoad m.topics topicName with
  | none => .error .topicNotFound
  | some t => .ok t

/-- Outcome of `MemoryEmitter.On`: an error return, a successful
registration, or a runtime panic escaping `On` — the nil-`*listenerItem`
dereference in the binary-search comparator, reached when the topic's sorted
slice holds a stale id (left by a duplicate generated id followed by a
removal) and the probe sequence hits it. -/
inductive OnResult (ε α : Type) where
  | err (e : SentinelError)
  | ok (id : String) (m : MemoryEmitter ε α)
  | panicked

/-- `MemoryEmitter.On` (memory.go): nil-listener check, topic-name check,
`EnsureTopic`, id generation, `AddListener`. The possibly-nil Go listener is
an `Option`; the generated id is the id stream read at the current counter;
the in-place mutation of the shared topic becomes a write-back; the
`AddListener` call that would dereference a nil `*listenerItem` in Go is
surfaced as `OnResult.panicked`. -/
def MemoryEmitter.On (m : MemoryEmitter ε α) (topicName : String)
    (listener : Option (Listener ε α)) (opts : List (ListenerOption ε α)) :
    OnResult ε α :=
  match listener with
  | none => .err .nilListener
  | some f =>
    if isValidTopicName topicName then
      let tm := m.EnsureTopic topicName
      let listenerID := m.idGenerator m.idCounter
      if tm.1.addListenerPanics listenerID f opts then .panicked
      else
        let t' := tm.1.AddListener listenerID f opts
        .ok listenerID
          { tm.2 with
              topics := topicsStore tm.2.topics topicName t',
              idCounter := tm.2.idCounter + 1 }
    else .err .invalidTopicName

/-- `MemoryEmitter.Off` (memory.go): look the topic up (`TopicNotFound` when
absent) and delegate to `RemoveListener`; the mutated topic is written
back. -/
def MemoryEmitter.Off (m : MemoryEmitter ε α) (topicName listenerID : String) :
    MemoryEmitter ε α × Option SentinelError :=
  match topicsLoad m.topics topicName with
  | none => (m, some .topicNotFound)
  | some t =>
    let r := t.RemoveListener listenerID
    ({ m with topics := topicsStore m.topics topicName r.1 }, r.2)

/-- Result of one emission dispatch pass: the final event state, the errors
delivered to the caller, and the cross-topic listener-invocation trace. -/
structure DispatchResult (ε α : Type) where
  event : EventState α
  errs : List (SentinelError ⊕ ε)
  trace : List (TraceEntry ε α)

/-- The `m.topics.Range` loop of `handleEvents` (memory.go): for each stored
(pattern, topic) entry whose pattern matches the emitted topic name, trigger
the topic with the shared event, route each listener error through the
error-transform hook (a `none` result suppresses it), and carry the same
event state into the next matching topic. -/
def MemoryEmitter.dispatchLoop (m : MemoryEmitter ε α) (topicName : String) :
    List (String × Topic ε α) → EventState α → DispatchResult ε α
  | [], e => ⟨e, [], []⟩
  | (pat, t) :: rest, e =>
    if matchTopicPattern pat.data topicName.data then
      let r := t.TriggerTrace e
      let handled := (r.errs.filterMap (fun err => m.errorHandler r.event err)).map
        (fun err => (Sum.inr err : SentinelError ⊕ ε))
      let res := m.dispatchLoop topicName rest r.event
      ⟨res.event, handled ++ res.errs, r.trace ++ res.trace⟩
    else m.dispatchLoop topicName rest e

/-- `MemoryEmitter.handleEvents` (memory.go): construct one event before the
scan (`event := NewBaseEvent(topicName, payload)`) and thread it through
every matching topic's trigger. The panic-recovery wrapper is not modelled. -/
def MemoryEmitter.handleEvents (m : MemoryEmitter ε α) (topicName : String)
    (payload : α) : DispatchResult ε α :=
  m.dispatchLoop topicName m.topics (NewBaseEvent topicName payload)

/-- `MemoryEmitter.EmitSync` (memory.go): fail fast with one `EmitterClosed`
when closed, otherwise run the dispatch pass and return its errors. -/
def MemoryEmitter.EmitSync (m : MemoryEmitter ε α) (topicName : String)
    (payload : α) : List (SentinelError ⊕ ε) :=
  if m.closed then [Sum.inl .emitterClosed]
  else (m.handleEvents topicName payload).errs

/-- `MemoryEmitter.Emit` (memory.go): when closed, the returned channel
yields one `EmitterClosed` and is closed; otherwise the asynchronous task
runs the same dispatch pass and the channel delivers its errors before being
closed. The channel is modelled by the finite list of errors it delivers. -/
def MemoryEmitter.Emit (m : MemoryEmitter ε α) (topicName : String)
    (payload : α) : List (SentinelError ⊕ ε) :=
  if m.closed then [Sum.inl .emitterClosed]
  else (m.handleEvents topicName payload).errs

/-- `MemoryEmitter.Close` (memory.go): `EmitterAlreadyClosed` when already
closed; otherwise mark closed and delete every topic entry (`Range` +
`Delete`). The pool release is not modelled. -/
def MemoryEmitter.Close (m : MemoryEmitter ε α) :
    Except SentinelError (MemoryEmitter ε α) :=
  if m.closed then .error .emitterAlreadyClosed
  else .ok { m with closed := true, topics := [] }

/-- C7: after a successful `Close`, `GetTopic` fails with `TopicNotFound` for
every name (in particular every previously registered pattern), `EmitSync`
returns exactly the one-element list `[EmitterClosed]`, `Emit` delivers a
single `EmitterClosed` and completes, and a second `Close` fails with
`EmitterAlreadyClosed`. -/
theorem close_semantics (m m' : MemoryEmitter ε α)
    (hclose : m.Close = .ok m') (topicName : String) (payload : α) :
    (∀ name, m'.GetTopic name = .error .topicNotFound) ∧
    m'.EmitSync topicName payload = [Sum.inl .emitterClosed] ∧
    m'.Emit topicName payload = [Sum.inl .emitterClosed] ∧
    m'.Close = .error .emitterAlreadyClosed := by
  rw [MemoryEmitter.Close] at hclose
  by_cases hc : m.closed = true
  · rw [if_pos hc] at hclose
    cases hclose
  · rw [if_neg hc] at hclose
    have hm' : ({ m with closed := true, topics := [] } : MemoryEmitter ε α) = m' := by
      injection hclose
    subst hm'
    refine ⟨?_, ?_, ?_, ?_⟩
    · intro name
      simp [MemoryEmitter.GetTopic, topicsLoad]
    · simp [MemoryEmitter.EmitSync]
    · simp [MemoryEmitter.Emit]
    · simp [MemoryEmitter.Close]

/-- Concrete emitter used to witness the Close semantics. -/
def closeWitnessEmitter : MemoryEmitter Unit Nat :=
  { topics := [("topic1", NewTopic)]
    errorHandler := fun _ err => some err
    idGenerator := fun _ => "id0"
    idCounter := 0
    closed := false
    errChanBufferSize := 10 }

theorem close_semantics_witness :
    (closeWitnessEmitter.Close =
      .ok { closeWitnessEmitter with closed := true, topics := [] }) ∧
    (({ closeWitnessEmitter with closed := true, topics := [] } :
        MemoryEmitter Unit Nat).GetTopic "topic1" = .error .topicNotFound) ∧
    (({ closeWitnessEmitter with closed := true, topics := [] } :
        MemoryEmitter Unit Nat).EmitSync "topic1" 0 = [Sum.inl .emitterClosed]) ∧
    (({ closeWitnessEmitter with closed := true, topics := [] } :
        MemoryEmitter Unit Nat).Emit "topic1" 0 = [Sum.inl .emitterClosed]) ∧
    (({ closeWitnessEmitter with closed := true, topics := [] } :
        MemoryEmitter Unit Nat).Close = .error .emitterAlreadyClosed) := by
  have base := close_semantics closeWitnessEmitter
    { closeWitnessEmitter with closed := true, topics := [] } rfl "topic1" 0
  exact ⟨rfl, base.1 "topic1", base.2.1, base.2.2.1, base.2.2.2⟩

/-- A trace is chained from `e` when its first invocation receives exactly
`e` and every later invocation receives exactly the event state the previous
invocation left: the state-passing rendering of all listeners sharing one
mutable event by reference. -/
def ChainedFrom : EventState α → List (TraceEntry ε α) → Prop
  | _, [] => True
  | e, en :: rest => en.inp = e ∧ ChainedFrom en.out rest

/-- Event state after running a chained trace. -/
def lastState (e : EventState α) : List (TraceEntry ε α) → EventState α
  | [] => e
  | en :: rest => lastState en.out rest

theorem chainedFrom_append (e : EventState α) (tr1 tr2 : List (TraceEntry ε α))
    (h1 : ChainedFrom e tr1) (h2 : ChainedFrom (lastState e tr1) tr2) :
    ChainedFrom e (tr1 ++ tr2) ∧
    lastState e (tr1 ++ tr2) = lastState (lastState e tr1) tr2 := by
  induction tr1 generalizing e with
  | nil => exact ⟨h2, rfl⟩
  | cons en tr1 ih =>
    obtain ⟨hinp, hch⟩ := h1
    obtain ⟨hc, hl⟩ := ih en.out hch h2
    exact ⟨⟨hinp, hc⟩, hl⟩

theorem triggerLoop_chained (t : Topic ε α) (l : List String) (e : EventState α) :
    ChainedFrom e (t.triggerLoop l e).trace ∧
    (t.triggerLoop l e).event = lastState e (t.triggerLoop l e).trace := by
  induction l generalizing e with
  | nil => exact ⟨trivial, rfl⟩
  | cons id rest ih =>
    cases hj : t.listeners id with
    | none =>
      rw [Topic.triggerLoop]
      simp only [hj]
      exact ih e
    | some itm =>
      rw [Topic.triggerLoop]
      simp only [hj]
      by_cases hab : ((itm.listener e).1).IsAborted = true
      · rw [if_pos hab]
        exact ⟨⟨rfl, trivial⟩, rfl⟩
      · rw [if_neg hab]
        obtain ⟨hc, hl⟩ := ih (itm.listener e).1
        exact ⟨⟨rfl, hc⟩, hl⟩

theorem dispatchLoop_chained (m : MemoryEmitter ε α) (topicName : String)
    (ts : List (String × Topic ε α)) (e : EventState α) :
    ChainedFrom e (m.dispatchLoop topicName ts e).trace ∧
    (m.dispatchLoop topicName ts e).event =
      lastState e (m.dispatchLoop topicName ts e).trace := by
  induction ts generalizing e with
  | nil => exact ⟨trivial, rfl⟩
  | cons pt rest ih =>
    obtain ⟨pat, t⟩ := pt
    rw [MemoryEmitter.dispatchLoop]
    by_cases hm : matchTopicPattern pat.data topicName.data = true
    · rw [if_pos hm]
      simp only
      obtain ⟨hc1, hl1⟩ := triggerLoop_chained t t.sortedListenerIDs e
      have hl1' : (t.TriggerTrace e).event = lastState e (t.TriggerTrace e).trace := hl1
      obtain ⟨hc2, hl2⟩ := ih (t.TriggerTrace e).event
      have hc2' : ChainedFrom (lastState e (t.TriggerTrace e).trace)
          (m.dispatchLoop topicName rest (t.TriggerTrace e).event).trace := by
        rw [← hl1']
        exact hc2
      obtain ⟨hc, hl⟩ := chainedFrom_append e (t.TriggerTrace e).trace
        (m.dispatchLoop topicName rest (t.TriggerTrace e).event).trace hc1 hc2'
      refine ⟨hc, ?_⟩
      rw [hl, ← hl1', hl2]
    · rw [if_neg hm]
      exact ih e

/-- C2: each EmitSync / async dispatch pass constructs exactly one event —
`NewBaseEvent(topicName, payload)` before the pattern scan — and passes that
same event through every listener of every matching pattern's topic: the
pass's invocation trace is chained from the fresh event, so a payload written
with SetPayload or an abort flag set with SetAborted by one listener is
exactly the state received by the next listener invoked in the same pass,
including listeners registered under a different matching pattern. -/
theorem handleEvents_single_shared_event (m : MemoryEmitter ε α)
    (topicName : String) (payload : α) :
    ChainedFrom (NewBaseEvent topicName payload)
      (m.handleEvents topicName payload).trace ∧
    (m.handleEvents topicName payload).event =
      lastState (NewBaseEvent topicName payload)
        (m.handleEvents topicName payload).trace :=
  dispatchLoop_chained m topicName m.topics (NewBaseEvent topicName payload)

theorem isValidTopicName_eq_false_iff (topicName : String) :
    isValidTopicName topicName = false ↔
      (topicName = "" ∨ '?' ∈ topicName.data ∨ '[' ∈ topicName.data) := by
  simp [isValidTopicName, List.elem_iff]
  tauto

theorem topicsLoad_topicsStore (ts : List (String × Topic ε α)) (name : String)
    (t' : Topic ε α) (h : (topicsLoad ts name).isSome = true) :
    topicsLoad (topicsStore ts name t') name = some t' := by
  induction ts with
  | nil => simp [topicsLoad] at h
  | cons p ts ih =>
    by_cases hp : p.1 = name
    · simp [topicsLoad, topicsStore, List.find?, hp]
    · rw [topicsLoad, List.find?] at h
      simp only [hp, decide_eq_false] at h
      rw [topicsStore, List.map_cons, if_neg hp, topicsLoad, List.find?]
      simp only [hp, decide_eq_false]
      exact ih h

theorem topicsLoad_append_self (ts : List (String × Topic ε α)) (name : String)
    (t : Topic ε α) : (topicsLoad (ts ++ [(name, t)]) name).isSome = true := by
  induction ts with
  | nil => simp [topicsLoad, List.find?]
  | cons p ts ih =>
    by_cases hp : p.1 = name
    · simp [topicsLoad, List.find?, hp]
    · rw [List.cons_append, topicsLoad, List.find?]
      simp only [hp, decide_eq_false]
      exact ih

/-- Helper for concrete On chains: the emitter after a successful
registration, or the fallback when `On` did not return `ok`. -/
def onResultEmitter (fallback : MemoryEmitter ε α) : OnResult ε α → MemoryEmitter ε α
  | .ok _ m => m
  | _ => fallback

/-- Emitter whose id generator repeats "a" for the first two registrations
and then produces "b", as a custom injected generator may. -/
def dupGenEmitter : MemoryEmitter Unit Nat :=
  { topics := []
    errorHandler := fun _ err => some err
    idGenerator := fun k => if k < 2 then "a" else "b"
    idCounter := 0
    closed := false
    errChanBufferSize := 10 }

/-- C6 counterexample: after two `On` calls that both generate the id "a"
and one `Off` of "a", the topic's sorted slice still holds a second "a"
that the listener map no longer contains; the next `On` with a valid topic
name and a non-nil listener then makes the binary-search comparator
dereference a nil `*listenerItem` — the Go call panics instead of
registering and returning an id, so "in all other cases it registers the
listener and returns a generated id with no error" is false as stated. -/
theorem on_panic_counterexample :
    isValidTopicName "evt" = true ∧
    ((onResultEmitter dupGenEmitter ((onResultEmitter dupGenEmitter
        (dupGenEmitter.On "evt" (some (fun e => (e, none))) [])).On "evt"
        (some (fun e => (e, none))) [])).Off "evt" "a").1.On "evt"
      (some (fun e => (e, none))) [] = OnResult.panicked :=
  ⟨by decide, rfl⟩

/-- C6 (amended): `On` returns `NilListener` exactly when the listener is
nil; otherwise it returns `InvalidTopicName` exactly when the topic name is
empty or contains `?` or `[`; in every other case — provided the sorted
insert does not probe a stale slice id, on which the Go call panics with a
nil dereference instead of returning — it registers the listener under the
freshly generated id and returns that id with no error. -/
theorem on_validation (m : MemoryEmitter ε α) (topicName : String)
    (listener : Option (Listener ε α)) (opts : List (ListenerOption ε α)) :
    (m.On topicName listener opts = .err .nilListener ↔ listener = none) ∧
    (∀ f, listener = some f →
      (m.On topicName listener opts = .err .invalidTopicName ↔
        (topicName = "" ∨ '?' ∈ topicName.data ∨ '[' ∈ topicName.data))) ∧
    (∀ f, listener = some f → isValidTopicName topicName = true →
      ((m.EnsureTopic topicName).1).addListenerPanics
        (m.idGenerator m.idCounter) f opts = false →
      ∃ m' : MemoryEmitter ε α,
        m.On topicName listener opts = .ok (m.idGenerator m.idCounter) m' ∧
        ∃ t' : Topic ε α, topicsLoad m'.topics topicName = some t' ∧
          (t'.listeners (m.idGenerator m.idCounter)).isSome = true) := by
  refine ⟨?_, ?_, ?_⟩
  · constructor
    · intro h
      cases hl : listener with
      | none => rfl
      | some f =>
        simp only [hl, MemoryEmitter.On] at h
        by_cases hv : isValidTopicName topicName = true
        · rw [if_pos hv] at h
          by_cases hp : ((m.EnsureTopic topicName).1).addListenerPanics
              (m.idGenerator m.idCounter) f opts = true
          · rw [if_pos hp] at h
            cases h
          · rw [if_neg hp] at h
            cases h
        · rw [if_neg hv] at h
          cases h
    · rintro rfl
      rfl
  · rintro f rfl
    simp only [MemoryEmitter.On]
    rw [← isValidTopicName_eq_false_iff]
    by_cases hv : isValidTopicName topicName = true
    · rw [if_pos hv]
      constructor
      · intro h
        by_cases hp : ((m.EnsureTopic topicName).1).addListenerPanics
            (m.idGenerator m.idCounter) f opts = true
        · rw [if_pos hp] at h
          cases h
        · rw [if_neg hp] at h
          cases h
      · intro h
        rw [h] at hv
        cases hv
    · rw [if_neg hv]
      simp only [Bool.not_eq_true] at hv
      exact ⟨fun _ => hv, fun _ => rfl⟩
  · rintro f rfl hv hnp
    cases hload : topicsLoad m.topics topicName with
    | some t0 =>
      have hnp' : t0.addListenerPanics (m.idGenerator m.idCounter) f opts = false := by
        simpa only [MemoryEmitter.EnsureTopic, hload] using hnp
      refine ⟨{ m with
          topics := topicsStore m.topics topicName
            (t0.AddListener (m.idGenerator m.idCounter) f opts),
          idCounter := m.idCounter + 1 }, ?_, ?_⟩
      · simp only [MemoryEmitter.On, MemoryEmitter.EnsureTopic, hload]
        rw [if_pos hv, if_neg (by simp [hnp'] :
          ¬(t0.addListenerPanics (m.idGenerator m.idCounter) f opts = true))]
      · refine ⟨t0.AddListener (m.idGenerator m.idCounter) f opts, ?_, ?_⟩
        · exact topicsLoad_topicsStore m.topics topicName _ (by rw [hload]; rfl)
        · rw [addListener_listeners]
          simp
    | none =>
      have hnp' : (NewTopic : Topic ε α).addListenerPanics
          (m.idGenerator m.idCounter) f opts = false := by
        simpa only [MemoryEmitter.EnsureTopic, hload] using hnp
      refine ⟨{ m with
          topics := topicsStore (m.topics ++ [(topicName, NewTopic)]) topicName
            ((NewTopic : Topic ε α).AddListener (m.idGenerator m.idCounter) f opts),
          idCounter := m.idCounter + 1 }, ?_, ?_⟩
      · simp only [MemoryEmitter.On, MemoryEmitter.EnsureTopic, hload]
        rw [if_pos hv, if_neg (by simp [hnp'] :
          ¬((NewTopic : Topic ε α).addListenerPanics
            (m.idGenerator m.idCounter) f opts = true))]
      · refine ⟨(NewTopic : Topic ε α).AddListener (m.idGenerator m.idCounter) f opts, ?_, ?_⟩
        · exact topicsLoad_topicsStore _ topicName _
            (topicsLoad_append_self m.topics topicName NewTopic)
        · rw [addListener_listeners]
          simp

/-- Concrete emitter used to witness the On validation semantics. -/
def onWitnessEmitter : MemoryEmitter Unit Nat :=
  { topics := []
    errorHandler := fun _ err => some err
    idGenerator := fun k => toString k
    idCounter := 0
    closed := false
    errChanBufferSize := 10 }

theorem on_validation_witness :
    (onWitnessEmitter.On "user.created" (some (fun e => (e, none))) [] =
        .err .nilListener ↔
      (some (fun e => (e, none)) : Option (Listener Unit Nat)) = none) ∧
    (onWitnessEmitter.On "bad?" (some (fun e => (e, none))) [] =
        .err .invalidTopicName ↔
      ("bad?" = "" ∨ '?' ∈ "bad?".data ∨ '[' ∈ "bad?".data)) ∧
    (isValidTopicName "user.created" = true) ∧
    (((onWitnessEmitter.EnsureTopic "user.created").1).addListenerPanics
      (onWitnessEmitter.idGenerator onWitnessEmitter.idCounter)
      (fun e => (e, none)) [] = false) ∧
    (∃ m' : MemoryEmitter Unit Nat,
      onWitnessEmitter.On "user.created" (some (fun e => (e, none))) [] =
        .ok (onWitnessEmitter.idGenerator onWitnessEmitter.idCounter) m' ∧
      ∃ t' : Topic Unit Nat, topicsLoad m'.topics "user.created" = some t' ∧
        (t'.listeners
          (onWitnessEmitter.idGenerator onWitnessEmitter.idCounter)).isSome = true) :=
  ⟨(on_validation onWitnessEmitter "user.created" (some (fun e => (e, none))) []).1,
   (on_validation onWitnessEmitter "bad?" (some (fun e => (e, none))) []).2.1 _ rfl,
   by decide,
   by decide,
   (on_validation onWitnessEmitter "user.created"
     (some (fun e => (e, none))) []).2.2 _ rfl (by decide) (by decide)⟩
